import Mathlib

/-!
# Verification of the product-matching ingest pipeline

Shallow embedding of the pipeline implemented in `main.py`,
`postgres_client.py`, `elasticsearch_client.py` and
`product_matching_service.py`:

* the streaming category-path resolution (`parse_categories`),
* the per-offer product construction (`parse_products`),
* the chunking loop of `main`,
* the PostgreSQL client's transactional batch insert and the
  similar-SKU update,
* the Elasticsearch client's `find_similar_products`,
* the similarity phase of `main` (per-product task plus the counting
  loop over futures).

Python machine-level behaviour is made explicit:

* a raw XML field is `XmlField`: either the attribute/element is absent,
  present but unparseable (Python `int()`/`float()` raises `ValueError`),
  or carries a parsed value; `int(elem.get("id"))` on an absent attribute
  is `int(None)`, which raises `TypeError` — an exception that the
  `except (ValueError, AttributeError)` handlers of the source do *not*
  catch, so it escapes the parsing pass;
* Python float literals parsed from the feed are modelled as `Rat`
  (the claims under verification only use them for zero tests and
  data-flow, never for rounding-sensitive arithmetic);
* the `uuid.uuid4()` value minted for each product is external
  nondeterminism that no claim depends on, so it is omitted from the
  parsed-product record;
* effects of the external stores are modelled by explicit state passing
  (`PgConn`) together with outcome parameters that choose the failure
  point of each fallible call.
-/

set_option autoImplicit false

namespace PMS

universe u

/-- A raw feed field as the Python code sees it: the attribute/element is
absent, present but not parseable to the expected numeric type
(`int()` / `float()` raises `ValueError`), or present with a value. -/
inductive XmlField (α : Type) where
  | absent
  | malformed
  | val (a : α)
deriving DecidableEq

/-- The two Python exception classes relevant to the parse loops:
`ValueError` is caught by the per-record handlers, `TypeError`
(from `int(None)`) is not. -/
inductive PyExc where
  | typeError
  | valueError
deriving DecidableEq

/-- `int(elem.get(attr))` with no default: an absent attribute gives
`int(None)` which raises `TypeError`; an unparseable string raises
`ValueError`. -/
def intAttr : XmlField Int → Except PyExc Int
  | XmlField.absent => Except.error PyExc.typeError
  | XmlField.malformed => Except.error PyExc.valueError
  | XmlField.val v => Except.ok v

/-- `int(elem.get(attr, 0))` / `int(elem.findtext(tag, 0))`: an absent
field falls back to the default `0`; an unparseable string raises
`ValueError`. -/
def intElem : XmlField Int → Except PyExc Int
  | XmlField.absent => Except.ok 0
  | XmlField.malformed => Except.error PyExc.valueError
  | XmlField.val v => Except.ok v

/-- `float(elem.findtext(tag, 0))`: absent falls back to `0`,
unparseable raises `ValueError`. -/
def floatElem : XmlField Rat → Except PyExc Rat
  | XmlField.absent => Except.ok 0
  | XmlField.malformed => Except.error PyExc.valueError
  | XmlField.val v => Except.ok v

/-- The value of `f` when it parsed to a value, else the default `d`
(used to phrase spec-level statements about defaulting fields). -/
def fieldValD {α : Type} : XmlField α → α → α
  | XmlField.val v, _ => v
  | _, d => d

/-! ## Category map (`parse_categories`) -/

/-- The `categories` Python dict: category id → resolved path of names.
Represented as an association list where an insert prepends, so the most
recent binding for a key wins, matching dict assignment. -/
abbrev CatMap := List (Int × List String)

/-- `categories.get(k)` / `categories.get(k, default)` via `Option`. -/
def lookupCat : CatMap → Int → Option (List String)
  | [], _ => none
  | (k', v) :: m, k => if k' = k then some v else lookupCat m k

/-- `categories[k] = v` (dict assignment: overwrites any earlier binding). -/
def insertCat (m : CatMap) (k : Int) (v : List String) : CatMap :=
  (k, v) :: m

/-- One `<category>` end-event record as `parse_categories` consumes it:
the `id` attribute, the `parentId` attribute and the element text.
(`elem.text` can be `None` in Python; no claim exercises that case, and a
`None` name raises no error inside `parse_categories` itself, so names
are modelled as strings.) -/
structure CategoryRecord where
  id : XmlField Int
  parentId : XmlField Int
  name : String
deriving DecidableEq

/-- `parse_categories` (`main.py` lines 14–30): for each record parse
`id` (no default) and `parentId` (default `0`); on `ValueError` skip the
record and continue; a `TypeError` (absent `id` attribute) is not caught
and aborts the pass, which the `Except.error` result records. A record
with `parentId == 0` becomes a root `[name]`; otherwise the path is
`categories.get(parent_id, []) + [name]`. -/
def parse_categories : List CategoryRecord → CatMap → Except PyExc CatMap
  | [], m => Except.ok m
  | r :: rs, m =>
    match intAttr r.id with
    | Except.error PyExc.valueError => parse_categories rs m
    | Except.error PyExc.typeError => Except.error PyExc.typeError
    | Except.ok category_id =>
      match intElem r.parentId with
      | Except.error PyExc.valueError => parse_categories rs m
      | Except.error PyExc.typeError => Except.error PyExc.typeError
      | Except.ok parent_id =>
        parse_categories rs
          (insertCat m category_id
            (if parent_id = 0 then [r.name]
             else (lookupCat m parent_id).getD [] ++ [r.name]))

/-- A fully well-formed category record: parsed id, parsed parent id,
name. Used to state properties of feeds in which every record parses. -/
structure CatEntry where
  cid : Int
  pid : Int
  name : String
deriving DecidableEq

/-- The raw record carrying a well-formed entry. -/
def entryRec (t : CatEntry) : CategoryRecord :=
  ⟨XmlField.val t.cid, XmlField.val t.pid, t.name⟩

/-- The step `parse_categories` performs on one well-formed record. -/
def catStep (m : CatMap) (t : CatEntry) : CatMap :=
  insertCat m t.cid
    (if t.pid = 0 then [t.name]
     else (lookupCat m t.pid).getD [] ++ [t.name])

/-- The category map built from a feed of well-formed records. -/
def buildCat (m : CatMap) (ts : List CatEntry) : CatMap :=
  ts.foldl catStep m

/-! ## Product parsing (`parse_products`) -/

/-- One `<offer>` end-event record: the `id` attribute plus the child
elements `parse_products` reads. Numeric fields are `XmlField`; plain
text fields are `Option String` (`findtext` with no default yields
`None` when the element is missing). -/
structure OfferRecord where
  id : XmlField Int
  categoryId : XmlField Int
  name : Option String
  description : Option String
  vendor : Option String
  shopId : XmlField Int
  shopName : Option String
  picture : Option String
  price : XmlField Rat
  discount : XmlField Rat
  oldprice : XmlField Rat
  currencyId : Option String
  barcode : XmlField Int
deriving DecidableEq

/-- The product dict built for one offer (`main.py` lines 39–59), minus
the externally minted `uuid`. -/
structure Product where
  marketplace_id : Int
  product_id : Int
  title : Option String
  description : Option String
  brand : Option String
  seller_id : Int
  seller_name : Option String
  first_image_url : Option String
  category_id : Int
  category_lvl_1 : Option String
  category_lvl_2 : Option String
  category_lvl_3 : Option String
  category_remaining : Option String
  price_before_discounts : Rat
  discount : Rat
  price_after_discounts : Rat
  currency : Option String
  barcode : Int
deriving DecidableEq

/-- The body of the `parse_products` loop for one offer (`main.py` lines
36–60), with the fallible conversions performed in source evaluation
order: `categoryId` first (line 37), then the dict fields in literal
order (`id` attribute, `shop-id`, `price`, `discount`, `oldprice`,
`barcode`). The first exception wins, exactly as in Python.
`price_after_discounts` is Python's
`float(oldprice-or-0) or float(price-or-0)`: the parsed old price when
nonzero, else the parsed price. Guarded indexing
`path[i] if len(path) > i else None` and the `"/".join(path[3:])`
remainder are translated literally.

`offerProduct` is the dict literal of lines 39–59 as a function of the
already-parsed scalars; `parse_offer` performs the fallible conversions
around it. -/
def offerProduct (categories : CatMap) (r : OfferRecord)
    (category_id product_id seller_id : Int) (price discount oldprice : Rat)
    (barcode : Int) : Product :=
  let category_path := (lookupCat categories category_id).getD []
  { marketplace_id := 1
    product_id := product_id
    title := r.name
    description := r.description
    brand := r.vendor
    seller_id := seller_id
    seller_name := r.shopName
    first_image_url := r.picture
    category_id := category_id
    category_lvl_1 :=
      if h : 0 < category_path.length then
        some (category_path.get ⟨0, h⟩) else none
    category_lvl_2 :=
      if h : 1 < category_path.length then
        some (category_path.get ⟨1, h⟩) else none
    category_lvl_3 :=
      if h : 2 < category_path.length then
        some (category_path.get ⟨2, h⟩) else none
    category_remaining :=
      if 3 < category_path.length then
        some (String.intercalate "/" (category_path.drop 3))
      else none
    price_before_discounts := price
    discount := discount
    price_after_discounts :=
      if oldprice = 0 then price else oldprice
    currency := r.currencyId
    barcode := barcode }

def parse_offer (categories : CatMap) (r : OfferRecord) : Except PyExc Product :=
  match intElem r.categoryId with
  | Except.error e => Except.error e
  | Except.ok category_id =>
    match intAttr r.id with
    | Except.error e => Except.error e
    | Except.ok product_id =>
      match intElem r.shopId with
      | Except.error e => Except.error e
      | Except.ok seller_id =>
        match floatElem r.price with
        | Except.error e => Except.error e
        | Except.ok price =>
          match floatElem r.discount with
          | Except.error e => Except.error e
          | Except.ok discount =>
            match floatElem r.oldprice with
            | Except.error e => Except.error e
            | Except.ok oldprice =>
              match intElem r.barcode with
              | Except.error e => Except.error e
              | Except.ok barcode =>
                Except.ok (offerProduct categories r category_id product_id
                  seller_id price discount oldprice barcode)

/-- The `parse_products` generator (`main.py` lines 33–64) consumed to a
list: yielded products in order, plus a flag recording whether the
generator aborted with an uncaught exception (`TypeError`); a record
raising `ValueError` is skipped (logged) and the loop continues. When the
flag is `true`, the remaining records were never processed. -/
def parse_products (categories : CatMap) : List OfferRecord → List Product × Bool
  | [] => ([], false)
  | r :: rs =>
    match parse_offer categories r with
    | Except.ok p =>
      let rest := parse_products categories rs
      (p :: rest.1, rest.2)
    | Except.error PyExc.valueError => parse_products categories rs
    | Except.error PyExc.typeError => ([], true)

/-! ## Chunking loop (`main`, lines 94–105) -/

/-- One iteration of the chunking loop: `chunk.append(product)` followed
by `if len(chunk) >= CHUNK_SIZE: submit(chunk); chunk = []`. The first
component accumulates the submitted batches in submission order. -/
def chunkStep {α : Type u} (K : Nat) (acc : List (List α) × List α) (p : α) :
    List (List α) × List α :=
  let c := acc.2 ++ [p]
  if K ≤ c.length then (acc.1 ++ [c], []) else (acc.1, c)

/-- The batches submitted by the chunking loop over a product sequence,
including the trailing `if chunk: submit(chunk)` flush. -/
def chunkBatches {α : Type u} (K : Nat) (ps : List α) : List (List α) :=
  let r := ps.foldl (chunkStep K) ([], [])
  if r.2.isEmpty then r.1 else r.1 ++ [r.2]

/-! ## PostgreSQL client (`postgres_client.py`) -/

/-- The visible state of the single PostgreSQL connection: rows already
committed, and rows staged inside the currently open transaction
(`conn.autocommit = False`, so `execute_values` only stages rows until
`commit`). -/
structure PgConn (α : Type) where
  committed : List α
  pending : List α
deriving DecidableEq

/-- `conn.commit()`: publish the staged rows. -/
def pgCommit {α : Type} (c : PgConn α) : PgConn α :=
  ⟨c.committed ++ c.pending, []⟩

/-- `conn.rollback()`: discard the staged rows. -/
def pgRollback {α : Type} (c : PgConn α) : PgConn α :=
  ⟨c.committed, []⟩

/-- Where, if anywhere, a `psycopg2.Error` interrupts one
`insert_products` call: nowhere, inside `execute_values` after staging
`k` of the rows, or at `commit`. -/
inductive PgInsertOutcome where
  | ok
  | failExec (k : Nat)
  | failCommit
deriving DecidableEq

/-- `PostgresClient.insert_products` (`postgres_client.py` lines 13–39):
`try: execute_values(...); conn.commit() except psycopg2.Error:` log and
`conn.rollback()`. The handler swallows the error, so the call always
returns normally; on failure the transaction's staged rows are
discarded. -/
def insert_products {α : Type} (c : PgConn α) (batch : List α)
    (o : PgInsertOutcome) : PgConn α :=
  match o with
  | PgInsertOutcome.ok => pgCommit { c with pending := c.pending ++ batch }
  | PgInsertOutcome.failExec k =>
      pgRollback { c with pending := c.pending ++ batch.take k }
  | PgInsertOutcome.failCommit =>
      pgRollback { c with pending := c.pending ++ batch }

/-- A sequence of `insert_products` calls against the shared connection
(batch writes are serialized on the single connection; an arbitrary
interleaving order of sibling batches is an arbitrary job order here). -/
def runInserts {α : Type} (c : PgConn α) (jobs : List (List α × PgInsertOutcome)) :
    PgConn α :=
  jobs.foldl (fun c j => insert_products c j.1 j.2) c

/-! ## Elasticsearch client (`elasticsearch_client.py`) -/

/-- One hit of an Elasticsearch search response; only its `_id` is read. -/
structure EsHit where
  docId : String
deriving DecidableEq

/-- What comes back from `es.search(index="products", body=query, size=5)`
inside `find_similar_products`: the call raised, or returned a value
without the nested `"hits"`/`"hits"` keys, or returned a hit list. -/
inductive EsOutcome where
  | raised
  | malformed
  | hits (hs : List EsHit)
deriving DecidableEq

/-- The argument `find_similar_products` receives: in Python any value;
the code only distinguishes non-dicts, dicts without a `"uuid"` key, and
dicts carrying a uuid. -/
inductive FsInput where
  | notDict
  | dict (uuid : Option String)
deriving DecidableEq

/-- `ElasticsearchClient.find_similar_products` (`elasticsearch_client.py`
lines 65–99): non-dict input or a missing `"uuid"` key gives `[]`;
an exception from the search and a response without the `"hits"` shape
also give `[]`; otherwise the list comprehension
`[hit["_id"] for hit in hits if hit["_id"] != product["uuid"]]`. -/
def find_similar_products (product : FsInput) (resp : EsOutcome) : List String :=
  match product with
  | FsInput.notDict => []
  | FsInput.dict none => []
  | FsInput.dict (some u) =>
    match resp with
    | EsOutcome.raised => []
    | EsOutcome.malformed => []
    | EsOutcome.hits hs =>
        (hs.filter (fun h => h.docId ≠ u)).map (fun h => h.docId)

/-! ## Similarity phase (`main`, lines 69–77 and 122–130) -/

/-- One row of `fetch_products`' projection
`SELECT uuid, title, description, brand FROM public.sku`. -/
structure SimRow where
  uuid : String
  title : Option String
  description : Option String
  brand : Option String
deriving DecidableEq

/-- How one `update_similar_products` call on the PostgreSQL client ends
(`postgres_client.py` lines 53–64, a `try/except psycopg2.Error` with
rollback):
* `ok` — update committed, call returns normally;
* `failRolledBack` — the update raised `psycopg2.Error`, the handler
  logged it and `rollback()` succeeded: the call still returns normally
  and the row is unchanged;
* `failRaised` — an exception escaped the call (e.g. the `rollback()`
  itself failed on a dead connection, or a non-`psycopg2` error such as
  a `KeyError`). -/
inductive UpdateOutcome where
  | ok
  | failRolledBack
  | failRaised
deriving DecidableEq

/-- One similarity task: the fetched row, the search outcome for it, and
the update outcome of its `update_similar_products` call. -/
abbrev SimTask := SimRow × EsOutcome × UpdateOutcome

/-- `find_and_update_similar_products` (`main.py` lines 69–77): run
`find_similar_products` (total — it swallows its own exceptions), then
`update_similar_products`; if an exception escapes the update, the
handler logs and returns `None`, else the product uuid is returned.
The second component lists the `(uuid, similar_skus)` row updates this
task actually committed. -/
def find_and_update_similar_products (t : SimTask) :
    Option String × List (String × List String) :=
  let similar_skus := find_similar_products (FsInput.dict (some t.1.uuid)) t.2.1
  match t.2.2 with
  | UpdateOutcome.ok => (some t.1.uuid, [(t.1.uuid, similar_skus)])
  | UpdateOutcome.failRolledBack => (some t.1.uuid, [])
  | UpdateOutcome.failRaised => (none, [])

/-- Python truthiness of the task result used by `if result:`:
`None` and the empty string are falsy. -/
def pyTruthy : Option String → Bool
  | none => false
  | some s => s != ""

/-- The similarity phase of `main` (lines 122–130): every product gets a
task; the orchestrator waits on every future in order and increments
`product_count` when the result is truthy. Returns the final count and
the committed row updates. -/
def similarityPhase (tasks : List SimTask) : Nat × List (String × List String) :=
  tasks.foldl
    (fun acc t =>
      let r := find_and_update_similar_products t
      ((if pyTruthy r.1 then acc.1 + 1 else acc.1), acc.2 ++ r.2))
    (0, [])

/-- Modelled from the spec's words, for comparison with the code: "the
number of products whose findSimilar-then-updateSimilar task completed
without error" — the tasks whose store update actually went through
without any error. -/
def completedWithoutErrorCount (tasks : List SimTask) : Nat :=
  (tasks.filter (fun t => t.2.2 = UpdateOutcome.ok)).length

/-! ## Concrete demonstration values -/

/-- A fully well-formed offer: id 10, category 2, price 100, no old
price. -/
def offerA : OfferRecord :=
  { id := XmlField.val 10
    categoryId := XmlField.val 2
    name := some "Phone X"
    description := some "A phone"
    vendor := some "Acme"
    shopId := XmlField.val 7
    shopName := some "Shop"
    picture := some "http://img"
    price := XmlField.val 100
    discount := XmlField.absent
    oldprice := XmlField.absent
    currencyId := some "RUR"
    barcode := XmlField.val 4607004 }

/-- A second well-formed offer. -/
def offerB : OfferRecord :=
  { offerA with id := XmlField.val 11, name := some "Phone Y" }

/-- An offer whose `id` attribute is missing: `int(elem.get("id"))`
becomes `int(None)` and raises `TypeError`. -/
def offerNoId : OfferRecord :=
  { offerA with id := XmlField.absent }

/-- An offer whose `price` text does not parse: `float(...)` raises
`ValueError`, which the loop catches. -/
def offerBadPrice : OfferRecord :=
  { offerA with price := XmlField.malformed }

/-- The category map of the spec's concrete scenario:
`{1: (parent 0, "Electronics"), 2: (parent 1, "Phones")}` fed in
parent-first order. -/
def demoEntries : List CatEntry :=
  [⟨1, 0, "Electronics"⟩, ⟨2, 1, "Phones"⟩]

/-- The map resolved from `demoEntries`. -/
def demoCats : CatMap := buildCat [] demoEntries

/-- The product parsed from `offerA` against `demoCats`. -/
def demoProdA : Product := offerProduct demoCats offerA 2 10 7 100 0 0 4607004

/-- `offerA` with an explicit nonzero `oldprice`. -/
def offerD : OfferRecord := { offerA with oldprice := XmlField.val 120 }

/-- The product parsed from `offerD` against `demoCats`. -/
def demoProdD : Product := offerProduct demoCats offerD 2 10 7 100 0 120 4607004

/-- A concrete batch of similarity tasks: one full success, one task
whose update raises, one success with a malformed search response. -/
def demoSimTasks : List SimTask :=
  [(⟨"x", none, none, none⟩, EsOutcome.hits [⟨"x"⟩, ⟨"y"⟩], UpdateOutcome.ok),
   (⟨"y", none, none, none⟩, EsOutcome.raised, UpdateOutcome.failRaised),
   (⟨"z", none, none, none⟩, EsOutcome.malformed, UpdateOutcome.ok)]

/-- A feed respects parent-before-child ordering: whenever a record's
nonzero declared parent is defined anywhere in the feed, it is defined by
a strictly earlier record. -/
def ParentsFirst (ts : List CatEntry) : Prop :=
  ∀ pre t post, ts = pre ++ t :: post → t.pid ≠ 0 →
    t.pid ∈ ts.map CatEntry.cid → t.pid ∈ pre.map CatEntry.cid

/-- The resolved path of `t` in map `m` is the exact root-to-leaf name
sequence, phrased exactly as claim C1 phrases it: a root (`pid = 0`) and
a node whose declared parent is never defined in the feed (`pid ∉ ids`)
resolve to the single-element `[name]`; every other node's path is its
parent's resolved path with its own name appended. -/
abbrev ResolvesEntry (m : CatMap) (ids : List Int) (t : CatEntry) : Prop :=
  (t.pid = 0 → lookupCat m t.cid = some [t.name]) ∧
  (t.pid ∉ ids → lookupCat m t.cid = some [t.name]) ∧
  (t.pid ≠ 0 → t.pid ∈ ids →
    ∃ pp, lookupCat m t.pid = some pp ∧ lookupCat m t.cid = some (pp ++ [t.name]))

/-! ## Lemmas about the category map -/

theorem lookupCat_insert_self (m : CatMap) (k : Int) (v : List String) :
    lookupCat (insertCat m k v) k = some v := by
  simp [insertCat, lookupCat]

theorem lookupCat_insert_ne (m : CatMap) (k k' : Int) (v : List String)
    (h : k ≠ k') : lookupCat (insertCat m k v) k' = lookupCat m k' := by
  simp [insertCat, lookupCat, h]

/-- On a feed in which every record parses, `parse_categories` succeeds
and computes the `buildCat` fold. -/
theorem parse_categories_entries (ts : List CatEntry) (m : CatMap) :
    parse_categories (ts.map entryRec) m = Except.ok (buildCat m ts) := by
  induction ts generalizing m with
  | nil => rfl
  | cons t ts ih =>
      simpa only [List.map_cons, parse_categories, entryRec, intAttr, intElem,
        buildCat, List.foldl_cons, catStep] using ih _

/-- Keys never inserted are untouched by the fold. -/
theorem lookupCat_buildCat_not_mem (ts : List CatEntry) (k : Int) :
    k ∉ ts.map CatEntry.cid →
    ∀ m, lookupCat (buildCat m ts) k = lookupCat m k := by
  induction ts with
  | nil => intro _ m; rfl
  | cons t ts ih =>
      intro hk m
      simp only [List.map_cons, List.mem_cons, not_or] at hk
      show lookupCat (buildCat (catStep m t) ts) k = _
      rw [ih hk.2]
      exact lookupCat_insert_ne _ _ _ _ (fun h => hk.1 h.symm)

theorem buildCat_append_singleton (ts : List CatEntry) (t : CatEntry) (m : CatMap) :
    buildCat m (ts ++ [t]) = catStep (buildCat m ts) t := by
  simp [buildCat, List.foldl_append]

/-- Core invariant for C1: on a duplicate-free, parent-before-child feed,
every record's resolved path is its parent's path extended by its own
name (roots and never-defined parents resolving to `[name]`). -/
theorem buildCat_resolves : ∀ ts : List CatEntry,
    (ts.map CatEntry.cid).Nodup → ParentsFirst ts →
    ∀ t ∈ ts, ResolvesEntry (buildCat [] ts) (ts.map CatEntry.cid) t := by
  intro ts
  induction ts using List.reverseRecOn with
  | nil => intro _ _ t ht; simp at ht
  | append_singleton ts t ih =>
    intro hnodup horder t' ht'
    have hmapapp : (ts ++ [t]).map CatEntry.cid
        = ts.map CatEntry.cid ++ [t.cid] := by simp
    rw [hmapapp] at hnodup
    obtain ⟨hnd, -, hdisj⟩ := List.nodup_append.mp hnodup
    have hnotin : t.cid ∉ ts.map CatEntry.cid := fun hc => hdisj hc (by simp)
    have horder' : ParentsFirst ts := by
      intro pre u post heq hpid hmem
      have heq2 : ts ++ [t] = pre ++ u :: (post ++ [t]) := by rw [heq]; simp
      exact horder pre u (post ++ [t]) heq2 hpid
        (by rw [hmapapp]; exact List.mem_append_left _ hmem)
    have IH := ih hnd horder'
    have hself : lookupCat (catStep (buildCat [] ts) t) t.cid
        = some (if t.pid = 0 then [t.name]
                else (lookupCat (buildCat [] ts) t.pid).getD [] ++ [t.name]) :=
      lookupCat_insert_self _ _ _
    have hne : ∀ k, t.cid ≠ k →
        lookupCat (catStep (buildCat [] ts) t) k = lookupCat (buildCat [] ts) k :=
      fun k hk => lookupCat_insert_ne _ _ _ _ hk
    rw [buildCat_append_singleton, hmapapp]
    rcases List.mem_append.mp ht' with hmem | hlast
    · -- a record of the prefix: its paths are unchanged by the new insert
      have IH' := IH t' hmem
      have ht'in : t'.cid ∈ ts.map CatEntry.cid := List.mem_map_of_mem _ hmem
      have ht'ne : t.cid ≠ t'.cid := fun h => hnotin (h ▸ ht'in)
      have htr : lookupCat (catStep (buildCat [] ts) t) t'.cid
          = lookupCat (buildCat [] ts) t'.cid := hne _ ht'ne
      refine ⟨fun h0 => ?_, fun hnm => ?_, fun hp0 hpm => ?_⟩
      · rw [htr]; exact IH'.1 h0
      · have : t'.pid ∉ ts.map CatEntry.cid :=
          fun h => hnm (List.mem_append_left _ h)
        rw [htr]; exact IH'.2.1 this
      · rcases List.mem_append.mp hpm with hin | hlast2
        · obtain ⟨pp, hpar, hcid⟩ := IH'.2.2 hp0 hin
          have hparne : t.cid ≠ t'.pid := fun h => hnotin (h ▸ hin)
          exact ⟨pp, by rw [hne _ hparne]; exact hpar, by rw [htr]; exact hcid⟩
        · -- t' would point at the id defined only *after* it: excluded by ParentsFirst
          exfalso
          obtain ⟨pre, post, hsplit⟩ := List.append_of_mem hmem
          have heq2 : ts ++ [t] = pre ++ t' :: (post ++ [t]) := by
            rw [hsplit]; simp
          have hpre := horder pre t' (post ++ [t]) heq2 hp0
            (by rw [hmapapp]; exact hpm)
          have hpidts : t'.pid ∈ ts.map CatEntry.cid := by
            rw [hsplit, List.map_append]
            exact List.mem_append_left _ hpre
          rw [List.mem_singleton.mp hlast2] at hpidts
          exact hnotin hpidts
    · -- the new record itself
      rw [List.mem_singleton.mp hlast]
      refine ⟨fun h0 => ?_, fun hnm => ?_, fun hp0 hpm => ?_⟩
      · rw [hself, if_pos h0]
      · by_cases h0 : t.pid = 0
        · rw [hself, if_pos h0]
        · have hpnotin : t.pid ∉ ts.map CatEntry.cid :=
            fun h => hnm (List.mem_append_left _ h)
          rw [hself, if_neg h0, lookupCat_buildCat_not_mem ts t.pid hpnotin []]
          rfl
      · have hpin : t.pid ∈ ts.map CatEntry.cid := by
          have := horder ts t [] rfl hp0 (by rw [hmapapp]; exact hpm)
          exact this
        obtain ⟨u, humem, hucid⟩ := List.mem_map.mp hpin
        have husome : ∃ pv, lookupCat (buildCat [] ts) t.pid = some pv := by
          have IHu := IH u humem
          rw [← hucid]
          by_cases hu0 : u.pid = 0
          · exact ⟨_, IHu.1 hu0⟩
          · by_cases huin : u.pid ∈ ts.map CatEntry.cid
            · obtain ⟨pp, -, hcid⟩ := IHu.2.2 hu0 huin
              exact ⟨_, hcid⟩
            · exact ⟨_, IHu.2.1 huin⟩
        obtain ⟨pv, hpv⟩ := husome
        have hcidne : t.cid ≠ t.pid := fun h => hnotin (h ▸ hpin)
        refine ⟨pv, by rw [hne _ hcidne]; exact hpv, ?_⟩
        rw [hself, if_neg hp0, hpv]
        rfl

/-- **C1 — counterexample.** The two category records
`(id 2, parent 1, "Phones")` then `(id 1, parent 0, "Electronics")` form
a cycle-free tree with distinct ids whose node 2 has its parent 1
defined in the feed, yet the resolved path of node 2 is the
single-element `["Phones"]`, not the root-to-leaf
`["Electronics"] ++ ["Phones"]` required by the claim: the parent is
defined *after* the child, and the single streaming pass resolves the
child before the parent's path is known. -/
theorem categoryPath_unordered_counterexample :
    ([2, 1] : List Int).Nodup ∧ (1 : Int) ∈ ([2, 1] : List Int) ∧
    parse_categories
        [entryRec ⟨2, 1, "Phones"⟩, entryRec ⟨1, 0, "Electronics"⟩] []
      = Except.ok [(1, ["Electronics"]), (2, ["Phones"])] ∧
    lookupCat [(1, ["Electronics"]), (2, ["Phones"])] 2 = some ["Phones"] ∧
    some ["Phones"] ≠ some (["Electronics"] ++ ["Phones"]) :=
  ⟨by decide, by decide, rfl, rfl, by decide⟩

/-- **C1 (amended).** For every feed of well-formed category records with
pairwise-distinct ids in which every nonzero declared parent that is
defined at all is defined by an *earlier* record, `parse_categories`
completes and resolves every node to the exact root-to-leaf name
sequence: a node's path is its parent's resolved path with the node's
own name appended, and a record whose declared parent id is nonzero but
never defined in the feed (or whose parent id is `0`) resolves to the
single-element `[name]`. (The claim as frozen omits the
parent-before-child ordering hypothesis; the counterexample shows the
code violates it for a child that precedes its parent.) -/
theorem categoryPath_root_to_leaf (ts : List CatEntry)
    (hnodup : (ts.map CatEntry.cid).Nodup) (horder : ParentsFirst ts) :
    parse_categories (ts.map entryRec) [] = Except.ok (buildCat [] ts) ∧
    ∀ t ∈ ts, ResolvesEntry (buildCat [] ts) (ts.map CatEntry.cid) t :=
  ⟨parse_categories_entries ts [], buildCat_resolves ts hnodup horder⟩

/-- **C1 — witness.** The amended theorem applied to the concrete feed
`[(1, 0, "Electronics"), (2, 1, "Phones")]`. -/
theorem categoryPath_root_to_leaf_witness :
    parse_categories (demoEntries.map entryRec) []
      = Except.ok (buildCat [] demoEntries) ∧
    lookupCat (buildCat [] demoEntries) 1 = some ["Electronics"] ∧
    lookupCat (buildCat [] demoEntries) 2 = some (["Electronics"] ++ ["Phones"]) := by
  have horder : ParentsFirst demoEntries := by
    intro pre u post heq hpid hmem
    match pre with
    | [] =>
        simp only [demoEntries, List.nil_append, List.cons.injEq] at heq
        rw [← heq.1] at hpid
        exact absurd rfl hpid
    | [a] =>
        simp only [demoEntries, List.cons_append, List.nil_append,
          List.cons.injEq] at heq
        rw [← heq.1, ← heq.2.1]
        decide
    | a :: b :: rest =>
        simp only [demoEntries, List.cons_append, List.cons.injEq] at heq
        have := heq.2.2
        simp at this
  have h := categoryPath_root_to_leaf demoEntries (by decide) horder
  refine ⟨h.1, ?_, ?_⟩
  · exact (h.2 ⟨1, 0, "Electronics"⟩ (by simp [demoEntries])).1 rfl
  · obtain ⟨pp, hp1, hp2⟩ :=
      (h.2 ⟨2, 1, "Phones"⟩ (by simp [demoEntries])).2.2 (by decide) (by decide)
    have h1 := (h.2 ⟨1, 0, "Electronics"⟩ (by simp [demoEntries])).1 rfl
    rw [hp1] at h1
    injection h1 with h1
    subst h1
    simpa using hp2

/-! ## Lemmas about the chunking loop -/

/-- Invariant of the chunking fold: starting from a strictly-short
in-flight chunk, the emitted batches followed by the in-flight remainder
spell out exactly the input consumed so far, the remainder stays
strictly short, and every newly emitted batch has length exactly `K`. -/
theorem chunkFold_spec {α : Type u} (K : Nat) (hK : 0 < K) :
    ∀ (ps : List α) (done : List (List α)) (cur : List α), cur.length < K →
      ((ps.foldl (chunkStep K) (done, cur)).1.join
          ++ (ps.foldl (chunkStep K) (done, cur)).2
        = done.join ++ (cur ++ ps)) ∧
      (ps.foldl (chunkStep K) (done, cur)).2.length < K ∧
      (∀ b ∈ (ps.foldl (chunkStep K) (done, cur)).1, b ∈ done ∨ b.length = K) := by
  intro ps
  induction ps with
  | nil =>
      intro done cur h
      exact ⟨by simp, h, fun b hb => Or.inl hb⟩
  | cons p ps ih =>
      intro done cur h
      simp only [List.foldl_cons]
      by_cases hc : K ≤ (cur ++ [p]).length
      · have hstep : chunkStep K (done, cur) p = (done ++ [cur ++ [p]], []) := by
          simp only [chunkStep]
          rw [if_pos hc]
        rw [hstep]
        have hlen : (cur ++ [p]).length = K := by
          simp only [List.length_append, List.length_singleton] at hc ⊢
          omega
        obtain ⟨h1, h2, h3⟩ := ih (done ++ [cur ++ [p]]) [] hK
        refine ⟨by rw [h1]; simp, h2, ?_⟩
        intro b hb
        rcases h3 b hb with hb' | hb'
        · rcases List.mem_append.mp hb' with hb'' | hb''
          · exact Or.inl hb''
          · right; rw [List.mem_singleton.mp hb'']; exact hlen
        · exact Or.inr hb'
      · have hstep : chunkStep K (done, cur) p = (done, cur ++ [p]) := by
          simp only [chunkStep]
          rw [if_neg hc]
        rw [hstep]
        obtain ⟨h1, h2, h3⟩ := ih done (cur ++ [p]) (Nat.lt_of_not_le hc)
        exact ⟨by rw [h1]; simp, h2, h3⟩

/-- The concatenation of the submitted batches is the input sequence. -/
theorem chunkBatches_join {α : Type u} (K : Nat) (hK : 0 < K) (ps : List α) :
    (chunkBatches K ps).join = ps := by
  obtain ⟨h1, -, -⟩ := chunkFold_spec K hK ps [] [] hK
  simp only [List.join_nil, List.nil_append] at h1
  simp only [chunkBatches]
  cases hr2 : (ps.foldl (chunkStep K) ([], [])).2 with
  | nil =>
      rw [hr2, List.append_nil] at h1
      simpa using h1
  | cons x xs =>
      rw [hr2] at h1
      simp only [List.isEmpty_cons, if_false, Bool.false_eq_true]
      simpa [List.join_append] using h1

/-- Total length of a join of constant-length chunks. -/
theorem join_length_of_const {α : Type u} (l : List (List α)) (K : Nat)
    (h : ∀ b ∈ l, b.length = K) : l.join.length = l.length * K := by
  induction l with
  | nil => simp
  | cons b l ih =>
      have hb := h b (List.mem_cons_self _ _)
      have ih' := ih fun x hx => h x (List.mem_cons_of_mem _ hx)
      simp only [List.join_cons, List.length_append, List.length_cons, hb, ih']
      ring

/-- `ceil((n*K)/K) = n` for positive `K`. -/
theorem ceil_div_exact (K n : Nat) (hK : 0 < K) : (n * K + K - 1) / K = n := by
  have h1 : n * K + K - 1 = K * n + (K - 1) := by rw [Nat.mul_comm]; omega
  rw [h1, Nat.mul_add_div hK, Nat.div_eq_of_lt (by omega)]
  omega

/-- `ceil((n*K + L)/K) = n + 1` for a nonzero short remainder `L`. -/
theorem ceil_div_rem (K n L : Nat) (hK : 0 < K) (hL1 : 1 ≤ L) (hL2 : L < K) :
    (n * K + L + K - 1) / K = n + 1 := by
  have h1 : n * K + L + K - 1 = K * n + (L + K - 1) := by rw [Nat.mul_comm]; omega
  have hq : (L + K - 1) / K = 1 := Nat.div_eq_of_lt_le (by omega) (by omega)
  rw [h1, Nat.mul_add_div hK, hq]

/-- **C3.** For every finite product sequence and chunk size `K > 0`, the
chunking loop of `main` emits exactly `⌈N/K⌉ = (N + K - 1) / K` batches;
every batch except possibly the final one has size exactly `K`, every
batch has size at most `K`, and the multiset union of the emitted
batches is exactly the input sequence — nothing omitted, nothing
duplicated across batch boundaries. -/
theorem chunkBatches_count_sizes_contents {α : Type u} (K : Nat) (hK : 0 < K)
    (ps : List α) :
    (chunkBatches K ps).length = (ps.length + K - 1) / K ∧
    (∀ b ∈ (chunkBatches K ps).dropLast, b.length = K) ∧
    (∀ b ∈ chunkBatches K ps, b.length ≤ K) ∧
    ((chunkBatches K ps).join : Multiset α) = (ps : Multiset α) := by
  obtain ⟨h1, h2, h3⟩ := chunkFold_spec K hK ps [] [] hK
  simp only [List.join_nil, List.nil_append] at h1
  have hfull : ∀ b ∈ (ps.foldl (chunkStep K) ([], [])).1, b.length = K :=
    fun b hb => (h3 b hb).resolve_left (by simp)
  have hN : ps.length
      = (ps.foldl (chunkStep K) ([], [])).1.length * K
        + (ps.foldl (chunkStep K) ([], [])).2.length := by
    have hlen := congrArg List.length h1
    simp only [List.length_append] at hlen
    rw [join_length_of_const _ K hfull] at hlen
    omega
  have hjoin := chunkBatches_join K hK ps
  refine ⟨?_, ?_, ?_, by rw [hjoin]⟩
  · simp only [chunkBatches]
    cases hr2 : (ps.foldl (chunkStep K) ([], [])).2 with
    | nil =>
        rw [hr2] at hN
        simp only [List.length_nil, Nat.add_zero] at hN
        simp only [List.isEmpty_nil, if_true]
        rw [hN, ceil_div_exact K _ hK]
    | cons x xs =>
        rw [hr2] at hN h2
        simp only [List.isEmpty_cons, if_false, Bool.false_eq_true,
          List.length_append, List.length_singleton]
        rw [hN, ceil_div_rem K _ _ hK (by simp) h2]
  · simp only [chunkBatches]
    cases hr2 : (ps.foldl (chunkStep K) ([], [])).2 with
    | nil =>
        simp only [List.isEmpty_nil, if_true]
        exact fun b hb => hfull b (List.dropLast_subset _ hb)
    | cons x xs =>
        simp only [List.isEmpty_cons, if_false, Bool.false_eq_true,
          List.dropLast_concat]
        exact hfull
  · simp only [chunkBatches]
    cases hr2 : (ps.foldl (chunkStep K) ([], [])).2 with
    | nil =>
        simp only [List.isEmpty_nil, if_true]
        exact fun b hb => Nat.le_of_eq (hfull b hb)
    | cons x xs =>
        rw [hr2] at h2
        simp only [List.isEmpty_cons, if_false, Bool.false_eq_true]
        intro b hb
        rcases List.mem_append.mp hb with hb' | hb'
        · exact Nat.le_of_eq (hfull b hb')
        · rw [List.mem_singleton.mp hb']
          exact Nat.le_of_lt h2

/-- **C3 — witness.** The chunking theorem applied to three naturals
with chunk size 2. -/
theorem chunkBatches_count_sizes_contents_witness :
    (chunkBatches 2 [10, 20, 30]).length = (3 + 2 - 1) / 2 ∧
    ((chunkBatches 2 [10, 20, 30]).join : Multiset Nat)
      = ([10, 20, 30] : Multiset Nat) :=
  ⟨by
      have h := (chunkBatches_count_sizes_contents 2 (by decide) [10, 20, 30]).1
      simpa using h,
    (chunkBatches_count_sizes_contents 2 (by decide) [10, 20, 30]).2.2.2⟩

/-- **C10.** Chunking is order-preserving: concatenating the emitted
batches in emission order gives back the input sequence in its original
order (strictly stronger than C3's multiset equality). -/
theorem chunkBatches_order_preserving {α : Type u} (K : Nat) (hK : 0 < K)
    (ps : List α) : (chunkBatches K ps).join = ps :=
  chunkBatches_join K hK ps

/-- **C10 — witness.** Order preservation at chunk size 2 on five
elements. -/
theorem chunkBatches_order_preserving_witness :
    (chunkBatches 2 [1, 2, 3, 4, 5]).join = [1, 2, 3, 4, 5] :=
  chunkBatches_order_preserving 2 (by decide) [1, 2, 3, 4, 5]

/-! ## Lemmas about offer parsing -/

/-- Inversion of a successful offer parse: every fallible conversion
succeeded and the product is the dict literal over the parsed scalars. -/
theorem parse_offer_ok_inv (cats : CatMap) (r : OfferRecord) (p : Product)
    (h : parse_offer cats r = Except.ok p) :
    ∃ category_id product_id seller_id price discount oldprice barcode,
      intElem r.categoryId = Except.ok category_id ∧
      intAttr r.id = Except.ok product_id ∧
      intElem r.shopId = Except.ok seller_id ∧
      floatElem r.price = Except.ok price ∧
      floatElem r.discount = Except.ok discount ∧
      floatElem r.oldprice = Except.ok oldprice ∧
      intElem r.barcode = Except.ok barcode ∧
      p = offerProduct cats r category_id product_id seller_id price discount
            oldprice barcode := by
  unfold parse_offer at h
  repeat' (first | exact Except.noConfusion h | split at h)
  injection h with h
  subst h
  refine ⟨_, _, _, _, _, _, _, ?_, ?_, ?_, ?_, ?_, ?_, ?_, rfl⟩ <;> assumption

/-- A successful `float(findtext(x, 0))` determines the value-or-default
of the raw field. -/
theorem floatElem_ok_fieldValD (f : XmlField Rat) (v : Rat)
    (h : floatElem f = Except.ok v) : fieldValD f 0 = v := by
  cases f with
  | absent => injection h with h
  | malformed => exact Except.noConfusion h
  | val w => injection h with h

/-- Python's guarded indexing agrees with `List.get?`. -/
theorem guarded_index_eq_get? {α : Type u} (l : List α) (i : Nat) :
    (if h : i < l.length then some (l.get ⟨i, h⟩) else none) = l.get? i := by
  by_cases h : i < l.length
  · rw [dif_pos h, List.get?_eq_get h]
  · rw [dif_neg h, eq_comm, List.get?_eq_none]
    omega

/-- **C4.** For every successfully parsed offer item, the product's
`price_after_discounts` equals the item's `oldprice` value when
`oldprice` is present with a nonzero value, and otherwise (old price
absent, hence defaulted to zero, or explicitly zero) equals the item's
`price` value, with `price` defaulting to zero when absent. -/
theorem price_after_discounts_spec (cats : CatMap) (r : OfferRecord) (p : Product)
    (h : parse_offer cats r = Except.ok p) :
    (∀ v : Rat, r.oldprice = XmlField.val v → v ≠ 0 →
      p.price_after_discounts = v) ∧
    ((r.oldprice = XmlField.absent ∨ r.oldprice = XmlField.val 0) →
      p.price_after_discounts = fieldValD r.price 0) := by
  obtain ⟨cid, pid, sid, pr, dis, old, bar, hcid, hpid, hsid, hpr, hdis, hold,
    hbar, hp⟩ := parse_offer_ok_inv cats r p h
  subst hp
  constructor
  · intro v hv hv0
    rw [hv] at hold
    simp only [floatElem, Except.ok.injEq] at hold
    subst hold
    show (if v = 0 then pr else v) = v
    rw [if_neg hv0]
  · intro hc
    have hold0 : old = 0 := by
      rcases hc with hab | h0
      · rw [hab] at hold
        simp only [floatElem, Except.ok.injEq] at hold
        exact hold.symm
      · rw [h0] at hold
        simp only [floatElem, Except.ok.injEq] at hold
        exact hold.symm
    show (if old = 0 then pr else old) = fieldValD r.price 0
    rw [if_pos hold0, floatElem_ok_fieldValD r.price pr hpr]

/-- **C4 — witness.** A nonzero old price of 120 wins over the price of
100; with the old price absent the price (100, the value-or-default of
the raw field) is used. -/
theorem price_after_discounts_spec_witness :
    parse_offer demoCats offerD = Except.ok demoProdD ∧
    demoProdD.price_after_discounts = 120 ∧
    offerA.oldprice = XmlField.absent ∧
    parse_offer demoCats offerA = Except.ok demoProdA ∧
    demoProdA.price_after_discounts = fieldValD offerA.price 0 := by
  have hokD : parse_offer demoCats offerD = Except.ok demoProdD := by rfl
  have hokA : parse_offer demoCats offerA = Except.ok demoProdA := by rfl
  refine ⟨hokD, ?_, rfl, hokA, ?_⟩
  · exact (price_after_discounts_spec demoCats offerD demoProdD hokD).1 120 rfl
      (by decide)
  · exact (price_after_discounts_spec demoCats offerA demoProdA hokA).2
      (Or.inl rfl)

/-- **C5.** For every successfully parsed offer item with resolved
category path `P` (the path looked up for the item's parsed category id,
defaulting to the empty path), `category_lvl_1`, `category_lvl_2` and
`category_lvl_3` are the first, second and third elements of `P`
(`none` when `P` is shorter), and `category_remaining` is the elements
of `P` from the fourth onward joined with `"/"` (`none` when `P` has
length at most 3). -/
theorem category_levels_spec (cats : CatMap) (r : OfferRecord) (p : Product)
    (h : parse_offer cats r = Except.ok p) :
    ∀ cid : Int, intElem r.categoryId = Except.ok cid →
      p.category_id = cid ∧
      p.category_lvl_1 = ((lookupCat cats cid).getD []).get? 0 ∧
      p.category_lvl_2 = ((lookupCat cats cid).getD []).get? 1 ∧
      p.category_lvl_3 = ((lookupCat cats cid).getD []).get? 2 ∧
      p.category_remaining =
        (if ((lookupCat cats cid).getD []).length ≤ 3 then none
         else some (String.intercalate "/"
            (((lookupCat cats cid).getD []).drop 3))) := by
  obtain ⟨cid0, pid, sid, pr, dis, old, bar, hcid, hpid, hsid, hpr, hdis, hold,
    hbar, hp⟩ := parse_offer_ok_inv cats r p h
  subst hp
  intro cid hcid2
  rw [hcid] at hcid2
  simp only [Except.ok.injEq] at hcid2
  subst hcid2
  refine ⟨rfl, guarded_index_eq_get? _ 0, guarded_index_eq_get? _ 1,
    guarded_index_eq_get? _ 2, ?_⟩
  show (if 3 < ((lookupCat cats cid0).getD []).length then
          some (String.intercalate "/" (((lookupCat cats cid0).getD []).drop 3))
        else none) = _
  by_cases h3 : 3 < ((lookupCat cats cid0).getD []).length
  · rw [if_pos h3, if_neg (by omega)]
  · rw [if_neg h3, if_pos (by omega)]

/-- **C5 — witness.** The spec's concrete scenario: categories
`{1: (parent 0, "Electronics"), 2: (parent 1, "Phones")}` and an offer
with `categoryId = 2` give `category_lvl_1 = "Electronics"`,
`category_lvl_2 = "Phones"`, no third level and no remainder. -/
theorem category_levels_spec_witness :
    parse_offer demoCats offerA = Except.ok demoProdA ∧
    demoProdA.category_id = 2 ∧
    demoProdA.category_lvl_1 = some "Electronics" ∧
    demoProdA.category_lvl_2 = some "Phones" ∧
    demoProdA.category_lvl_3 = none ∧
    demoProdA.category_remaining = none := by
  have hok : parse_offer demoCats offerA = Except.ok demoProdA := by rfl
  have h := category_levels_spec demoCats offerA demoProdA hok 2 (by rfl)
  exact ⟨hok, h.1, h.2.1.trans (by decide), h.2.2.1.trans (by decide),
    h.2.2.2.1.trans (by decide), h.2.2.2.2.trans (by decide)⟩

/-- **C2 — the code at the failing input.** A `ValueError` on an
individual record is indeed skipped with the pass continuing (first two
conjuncts for an offer with an unparseable price, fifth conjunct for a
category with an unparseable id). But an offer whose `id` *attribute* is
missing — the claim's "missing required element" — raises `TypeError`
from `int(None)`, which `except (ValueError, AttributeError)` does not
catch: the generator aborts, the valid offer after it is lost (third and
fourth conjuncts: only one product emerges from
`[offerA, offerNoId, offerB]` and the aborted flag is set), and a
category record with a missing `id` attribute likewise aborts the
category pass (last conjunct). The claim says such items are skipped and
parsing continues. -/
theorem parse_missing_id_aborts_run :
    (parse_products [] [offerBadPrice, offerA]).2 = false ∧
    (parse_products [] [offerBadPrice, offerA]).1.length = 1 ∧
    (parse_products [] [offerA, offerNoId, offerB]).2 = true ∧
    (parse_products [] [offerA, offerNoId, offerB]).1.length = 1 ∧
    parse_categories
        [⟨XmlField.malformed, XmlField.val 0, "Gadgets"⟩,
         entryRec ⟨1, 0, "Electronics"⟩] []
      = Except.ok [(1, ["Electronics"])] ∧
    parse_categories
        [⟨XmlField.absent, XmlField.val 0, "Gadgets"⟩,
         entryRec ⟨1, 0, "Electronics"⟩] []
      = Except.error PyExc.typeError :=
  ⟨rfl, rfl, rfl, rfl, rfl, rfl⟩

/-! ## Elasticsearch client theorems -/

/-- **C6.** For every input product and every outcome of the size-5
search call (the engine returns at most 5 hits for `size=5`, stated as
the hypothesis), `find_similar_products` returns at most 5 ids and never
includes the queried product's own id. -/
theorem find_similar_bounded_excludes_self (product : FsInput) (resp : EsOutcome)
    (hsize : ∀ hs, resp = EsOutcome.hits hs → hs.length ≤ 5) :
    (find_similar_products product resp).length ≤ 5 ∧
    ∀ u, product = FsInput.dict (some u) →
      u ∉ find_similar_products product resp := by
  cases product with
  | notDict =>
      exact ⟨by simp [find_similar_products], fun u hu => by simp at hu⟩
  | dict ou =>
    cases ou with
    | none =>
        exact ⟨by simp [find_similar_products], fun u hu => by simp at hu⟩
    | some u0 =>
      cases resp with
      | raised =>
          exact ⟨by simp [find_similar_products],
            fun u hu => by simp [find_similar_products]⟩
      | malformed =>
          exact ⟨by simp [find_similar_products],
            fun u hu => by simp [find_similar_products]⟩
      | hits hs =>
        have hlen := hsize hs rfl
        constructor
        · show ((hs.filter (fun h => h.docId ≠ u0)).map (fun h => h.docId)).length ≤ 5
          rw [List.length_map]
          exact Nat.le_trans (List.length_filter_le _ _) hlen
        · intro u hu
          simp only [FsInput.dict.injEq, Option.some.injEq] at hu
          subst hu
          intro hmem
          obtain ⟨hh, hh1, hh2⟩ := List.mem_map.mp hmem
          have hp := List.of_mem_filter hh1
          simp only [decide_not, Bool.not_eq_true', decide_eq_false_iff_not] at hp
          exact hp hh2

/-- **C6 — witness.** A two-hit response containing the product's own id
yields at most five ids, its own id excluded. -/
theorem find_similar_bounded_excludes_self_witness :
    (find_similar_products (FsInput.dict (some "a"))
        (EsOutcome.hits [⟨"a"⟩, ⟨"b"⟩])).length ≤ 5 ∧
    "a" ∉ find_similar_products (FsInput.dict (some "a"))
        (EsOutcome.hits [⟨"a"⟩, ⟨"b"⟩]) := by
  have hsz : ∀ hs, EsOutcome.hits [EsHit.mk "a", EsHit.mk "b"]
      = EsOutcome.hits hs → hs.length ≤ 5 := by
    intro hs h
    injection h with h
    rw [← h]
    decide
  exact ⟨(find_similar_bounded_excludes_self _ _ hsz).1,
    (find_similar_bounded_excludes_self _ _ hsz).2 "a" rfl⟩

/-- **C8.** For every search outcome, an input that is not a dict, or a
dict without the `"uuid"` key, makes `find_similar_products` return the
empty list rather than raising. -/
theorem find_similar_invalid_input_empty (resp : EsOutcome) :
    find_similar_products FsInput.notDict resp = [] ∧
    find_similar_products (FsInput.dict none) resp = [] :=
  ⟨rfl, rfl⟩

/-! ## PostgreSQL client theorems -/

/-- Composition of batch inserts on the shared connection: every call
leaves no open transaction, and exactly the successful batches end up
committed, in order — a failed batch neither aborts the remaining
sibling batches nor disturbs already-committed ones. -/
theorem runInserts_spec {α : Type} :
    ∀ (jobs : List (List α × PgInsertOutcome)) (c : PgConn α),
      c.pending = [] →
      (runInserts c jobs).pending = [] ∧
      (runInserts c jobs).committed
        = c.committed
          ++ ((jobs.filter fun j => j.2 = PgInsertOutcome.ok).map Prod.fst).join := by
  intro jobs
  induction jobs with
  | nil => intro c hc; simp [runInserts, hc]
  | cons j js ih =>
      intro c hc
      have hstep_pending : (insert_products c j.1 j.2).pending = [] := by
        cases j.2 <;> simp [insert_products, pgCommit, pgRollback]
      have hstep : (insert_products c j.1 j.2).committed
          = c.committed ++ (if j.2 = PgInsertOutcome.ok then j.1 else []) := by
        cases j.2 <;> simp [insert_products, pgCommit, pgRollback, hc]
      obtain ⟨ih1, ih2⟩ := ih (insert_products c j.1 j.2) hstep_pending
      show (runInserts (insert_products c j.1 j.2) js).pending = [] ∧ _
      refine ⟨ih1, ?_⟩
      show (runInserts (insert_products c j.1 j.2) js).committed = _
      rw [ih2, hstep]
      by_cases hj : j.2 = PgInsertOutcome.ok
      · simp [hj, List.filter_cons]
      · simp [hj, List.filter_cons]

/-- **C7.** `insert_products` is atomic and quiet: starting from a
connection with no open transaction, the call always returns normally
(it is a total function: the `except psycopg2.Error` handler swallows
the failure after logging); on success the whole batch is appended to
the committed rows, on any database failure — whether during
`execute_values` after any number of staged rows, or at `commit` — the
rollback leaves the committed rows exactly as they were. Moreover, over
any sequence of sibling batch calls on the shared connection, exactly
the successful batches are committed: one batch's failure does not
abort, lose or corrupt the others. -/
theorem insert_products_atomic {α : Type} (c : PgConn α) (batch : List α)
    (o : PgInsertOutcome) (jobs : List (List α × PgInsertOutcome))
    (hc : c.pending = []) :
    (insert_products c batch o).pending = [] ∧
    (o = PgInsertOutcome.ok →
      (insert_products c batch o).committed = c.committed ++ batch) ∧
    (o ≠ PgInsertOutcome.ok →
      (insert_products c batch o).committed = c.committed) ∧
    (runInserts c jobs).pending = [] ∧
    (runInserts c jobs).committed
      = c.committed
        ++ ((jobs.filter fun j => j.2 = PgInsertOutcome.ok).map Prod.fst).join := by
  obtain ⟨h1, h2⟩ := runInserts_spec jobs c hc
  refine ⟨?_, ?_, ?_, h1, h2⟩
  · cases o <;> simp [insert_products, pgCommit, pgRollback]
  · intro ho; subst ho; simp [insert_products, pgCommit, hc]
  · intro ho
    cases o with
    | ok => exact absurd rfl ho
    | failExec k => simp [insert_products, pgRollback]
    | failCommit => simp [insert_products, pgRollback]

/-- **C7 — witness.** A batch failing mid-`execute_values` leaves the
store unchanged, and of three sibling batches with one `commit` failure
exactly the two successful ones are committed. -/
theorem insert_products_atomic_witness :
    (insert_products (⟨[0], []⟩ : PgConn Nat) [1, 2]
        (PgInsertOutcome.failExec 1)).committed = [0] ∧
    (runInserts (⟨[0], []⟩ : PgConn Nat)
        [([1, 2], PgInsertOutcome.ok), ([3], PgInsertOutcome.failCommit),
         ([4], PgInsertOutcome.ok)]).committed = [0, 1, 2, 4] := by
  have h := insert_products_atomic (⟨[0], []⟩ : PgConn Nat) [1, 2]
    (PgInsertOutcome.failExec 1)
    [([1, 2], PgInsertOutcome.ok), ([3], PgInsertOutcome.failCommit),
     ([4], PgInsertOutcome.ok)] rfl
  refine ⟨h.2.2.1 (by decide), ?_⟩
  rw [h.2.2.2.2]
  rfl

/-! ## Similarity-phase theorems -/

/-- Fold lemma for the similarity counting loop, generalized over the
running accumulator: the loop adds one per task that raised no uncaught
exception, and commits exactly the updates of the fully successful
tasks. -/
theorem similarityFold_spec :
    ∀ (tasks : List SimTask) (acc : Nat × List (String × List String)),
      (∀ t ∈ tasks, t.1.uuid ≠ "") →
      tasks.foldl
          (fun acc t =>
            let r := find_and_update_similar_products t
            ((if pyTruthy r.1 then acc.1 + 1 else acc.1), acc.2 ++ r.2)) acc
        = (acc.1
            + (tasks.filter fun t => ¬ t.2.2 = UpdateOutcome.failRaised).length,
           acc.2
            ++ (tasks.filter fun t => t.2.2 = UpdateOutcome.ok).map
                (fun t => (t.1.uuid,
                  find_similar_products (FsInput.dict (some t.1.uuid)) t.2.1))) := by
  intro tasks
  induction tasks with
  | nil => intro acc _; simp
  | cons t ts ih =>
      intro acc hall
      have ht := hall t (List.mem_cons_self _ _)
      have hts : ∀ x ∈ ts, x.1.uuid ≠ "" :=
        fun x hx => hall x (List.mem_cons_of_mem _ hx)
      simp only [List.foldl_cons]
      rw [ih _ hts]
      rcases t with ⟨row, esr, uo⟩
      have hpt : pyTruthy (some row.uuid) = true := by
        simp only [pyTruthy, bne_iff_ne, ne_eq]
        exact ht
      cases uo with
      | ok =>
          simp only [find_and_update_similar_products, hpt, if_true,
            List.filter_cons]
          simp [List.append_assoc]
          omega
      | failRolledBack =>
          simp only [find_and_update_similar_products, hpt, if_true,
            List.filter_cons]
          simp
          omega
      | failRaised =>
          simp only [find_and_update_similar_products, pyTruthy,
            List.filter_cons]
          simp

/-- **C9 — counterexample.** A run with a single product `"u1"` whose
store update fails with a `psycopg2.Error` that is caught, logged and
cleanly rolled back inside `update_similar_products`: the
findSimilar-then-updateSimilar sequence did *not* complete without error
(the update failed; the spec-side count of error-free tasks is 0), yet
`find_and_update_similar_products` sees no exception and the run reports
a success count of 1. -/
theorem similarity_count_counterexample :
    (similarityPhase
        [(⟨"u1", none, none, none⟩, EsOutcome.raised,
          UpdateOutcome.failRolledBack)]).1 = 1 ∧
    completedWithoutErrorCount
        [(⟨"u1", none, none, none⟩, EsOutcome.raised,
          UpdateOutcome.failRolledBack)] = 0 ∧
    (1 : Nat) ≠ 0 :=
  ⟨rfl, rfl, by decide⟩

/-- **C9 (amended).** The orchestrator waits on every task and the final
count equals exactly the number of products whose task raised no
*uncaught* exception: a task whose store update failed but was cleanly
rolled back inside the client is still counted (though its row was not
updated), while a task that raises an uncaught exception is excluded
from the count without preventing the other products' tasks from being
updated and counted — the committed updates are exactly those of the
fully successful tasks. (The hypothesis that fetched uuids are nonempty
reflects the `uuid` column: `if result:` would miscount an empty-string
uuid.) -/
theorem similarity_count_no_uncaught (tasks : List SimTask)
    (h : ∀ t ∈ tasks, t.1.uuid ≠ "") :
    (similarityPhase tasks).1
      = (tasks.filter fun t => ¬ t.2.2 = UpdateOutcome.failRaised).length ∧
    (similarityPhase tasks).2
      = (tasks.filter fun t => t.2.2 = UpdateOutcome.ok).map
          (fun t => (t.1.uuid,
            find_similar_products (FsInput.dict (some t.1.uuid)) t.2.1)) := by
  have hs := similarityFold_spec tasks (0, []) h
  unfold similarityPhase
  rw [hs]
  simp

/-- **C9 — witness.** Three tasks: a full success for `"x"`, an uncaught
failure for `"y"`, a success with malformed search response for `"z"`;
the count is 2 and exactly `"x"` and `"z"` are updated. -/
theorem similarity_count_no_uncaught_witness :
    (similarityPhase demoSimTasks).1 = 2 ∧
    (similarityPhase demoSimTasks).2 = [("x", ["y"]), ("z", [])] := by
  have h := similarity_count_no_uncaught demoSimTasks (by decide)
  exact ⟨h.1.trans (by rfl), h.2.trans (by rfl)⟩

end PMS
